import Mathlib

/-!
Verification development for the tatum-mcp-server core
(`src/typescript/community/mcp-tools/tatum-mcp-server/src/mcp.ts`).

The file embeds, as executable Lean definitions:
* the JavaScript `BigInt(string)` parsing used by `hexToBigInt` (line 32–34),
* the wei→ether fixed-point formatter `weiToEtherString` (lines 36–43),
* the inline token-amount formatter of the `get_token_balance` handler
  (lines 112–117),
* the retrying JSON-RPC call `tatumRpc` (lines 10–30) over an abstract
  transport, with the `p-retry`/`retry` library loop modelled explicitly,
* the `ALLOW_METHODS` set and the `rpc_call` tool handler (lines 57–69,
  153–162),
and proves the specification's testable properties about them.
-/

namespace TatumMcp

/-! ## Decimal / hexadecimal digit characters -/

/-- Numeric value of a hexadecimal digit character, `none` when the character
is not a hexadecimal digit.  Models the digit alphabet JavaScript accepts in
numeric literals (`0`–`9`, `a`–`f`, `A`–`F`). -/
def hexDigitVal? (c : Char) : Option ℕ :=
  if '0' ≤ c ∧ c ≤ '9' then some (c.toNat - 48)
  else if 'a' ≤ c ∧ c ≤ 'f' then some (c.toNat - 87)
  else if 'A' ≤ c ∧ c ≤ 'F' then some (c.toNat - 55)
  else none

/-- Total digit value (0 for non-digit characters). -/
def digitVal (c : Char) : ℕ := (hexDigitVal? c).getD 0

/-- Whether `c` is a valid digit in radix `b` (for `b ≤ 16`). -/
def isRadixDigit (b : ℕ) (c : Char) : Bool :=
  match hexDigitVal? c with
  | some v => v < b
  | none => false

/-- Digits of `n` in base `b`, most significant first, rendered as characters
(lower-case letters above 9, as JavaScript's `toString` produces).  The first
argument after the base is fuel; called with fuel `≥ n` it is exact.  Empty
for `n = 0`. -/
def natToBaseAux (b : ℕ) : ℕ → ℕ → List Char
  | 0, _ => []
  | _ + 1, 0 => []
  | fuel + 1, n + 1 =>
    natToBaseAux b fuel ((n + 1) / b) ++ [Nat.digitChar ((n + 1) % b)]

/-- Model of JavaScript `BigInt.prototype.toString()` (decimal) for
non-negative values: decimal digits of `n`, `"0"` for zero. -/
def natToDec (n : ℕ) : List Char :=
  if n = 0 then ['0'] else natToBaseAux 10 n n

/-- Hexadecimal rendering of `n` (used only to state round-trip properties
about parsing 0x-literals). -/
def natToHex (n : ℕ) : List Char :=
  if n = 0 then ['0'] else natToBaseAux 16 n n

/-- Model of JavaScript `BigInt.prototype.toString()` (decimal) on arbitrary
big integers: a leading minus sign for negative values. -/
def intToDec (i : ℤ) : List Char :=
  if i < 0 then '-' :: natToDec i.natAbs else natToDec i.toNat

/-- Value of a list of decimal digit characters, most significant first. -/
def decToNat (l : List Char) : ℕ :=
  l.foldl (fun a c => 10 * a + digitVal c) 0

/-! ## String helpers used by the formatters -/

/-- Model of JavaScript `String.prototype.padStart(w, '0')`: prefix with
zeros up to length `w` (no change when already at least that long). -/
def padStartZeros (w : ℕ) (l : List Char) : List Char :=
  List.replicate (w - l.length) '0' ++ l

/-- Model of JavaScript `.replace(/0+$/, '')`: remove the maximal run of
trailing `'0'` characters. -/
def trimTrailZeros (l : List Char) : List Char :=
  (l.reverse.dropWhile (fun c => c = '0')).reverse

/-! ## JavaScript `BigInt(string)` (the parser behind `hexToBigInt`) -/

/-- Digits of a radix-`b` literal folded into a number, `none` when the digit
list is empty or contains a character that is not a radix-`b` digit (the JS
`SyntaxError` cases). -/
def parseRadix (b : ℕ) (r : List Char) : Option ℕ :=
  if !r.isEmpty && r.all (isRadixDigit b) then
    some (r.foldl (fun a c => b * a + digitVal c) 0)
  else none

/-- Classify a non-empty trimmed literal: radix selected by a `0x`/`0o`/`0b`
prefix (upper or lower case), otherwise an optional sign followed by decimal
digits.  Returns (radix, negated, remaining digit characters). -/
def classifyLiteral : List Char → ℕ × Bool × List Char
  | '0' :: 'x' :: r => (16, false, r)
  | '0' :: 'X' :: r => (16, false, r)
  | '0' :: 'o' :: r => (8, false, r)
  | '0' :: 'O' :: r => (8, false, r)
  | '0' :: 'b' :: r => (2, false, r)
  | '0' :: 'B' :: r => (2, false, r)
  | '-' :: r => (10, true, r)
  | '+' :: r => (10, false, r)
  | r => (10, false, r)

/-- Model of JavaScript `StringToBigInt` on an already whitespace-trimmed
character list: the empty string denotes 0; otherwise the classified literal
is parsed in its radix, `none` standing for the thrown `SyntaxError`. -/
def strToBigIntList (l : List Char) : Option ℤ :=
  if l.isEmpty then some 0
  else
    let c := classifyLiteral l
    (parseRadix c.1 c.2.2).map fun n => if c.2.1 then -(n : ℤ) else (n : ℤ)

/-- Trim leading and trailing whitespace, as `StringToBigInt` does before
parsing. -/
def jsTrim (l : List Char) : List Char :=
  ((l.dropWhile Char.isWhitespace).reverse.dropWhile Char.isWhitespace).reverse

/-- Model of the JavaScript builtin `BigInt(string)`: `none` models the
thrown `SyntaxError`. -/
def strToBigInt (s : String) : Option ℤ :=
  strToBigIntList (jsTrim s.data)

/-- Translation of `hexToBigInt` (mcp.ts lines 32–34): `BigInt(hex)`, with
the thrown `SyntaxError` modelled as `none`. -/
def hexToBigInt (hex : String) : Option ℤ :=
  strToBigInt hex

/-! ## The fixed-point formatters -/

/-- Translation of the body of `weiToEtherString` (mcp.ts lines 36–43) after
the input has been parsed: division and remainder by `10^18` are JavaScript
BigInt `/` and `%` (truncated division), the fractional digits are left-padded
to 18 characters, right-trimmed of zeros, replaced by `"0"` when the trim
leaves the empty (falsy) string, and the dot is omitted for `"0"`. -/
def weiToEtherChars (wei : ℤ) : List Char :=
  let base : ℤ := 10 ^ 18
  let whole := Int.tdiv wei base
  let frac := Int.tmod wei base
  let t := trimTrailZeros (padStartZeros 18 (intToDec frac))
  let fracStr := if t = [] then ['0'] else t
  intToDec whole ++ (if fracStr = ['0'] then [] else '.' :: fracStr)

/-- Translation of `weiToEtherString` (mcp.ts lines 36–43): parse the hex
string with `hexToBigInt` (a thrown parse error propagates, modelled by
`none`) and format the result. -/
def weiToEtherString (weiHex : String) : Option String :=
  (hexToBigInt weiHex).map fun wei => String.mk (weiToEtherChars wei)

/-- Translation of the inline formatting logic of the `get_token_balance`
handler (mcp.ts lines 112–117), generalized over `decimals` exactly as the
handler is: `base = 10n ** BigInt(decimals)`, `whole = raw / base`,
`frac = raw % base`, pad/trim/render as in the handler. -/
def tokenFormatChars (decimals : ℕ) (raw : ℤ) : List Char :=
  let base : ℤ := 10 ^ decimals
  let whole := Int.tdiv raw base
  let frac := Int.tmod raw base
  let t := trimTrailZeros (padStartZeros decimals (intToDec frac))
  let fracStr := if t = [] then ['0'] else t
  intToDec whole ++ (if fracStr = ['0'] then [] else '.' :: fracStr)

/-- Helper: the formatter restricted to non-negative magnitudes, stated over
`ℕ`.  `tokenFormatChars d (n : ℤ)` reduces to this (see
`tokenFormatChars_natCast`). -/
def fmtN (d n : ℕ) : List Char :=
  let base := 10 ^ d
  let t := trimTrailZeros (padStartZeros d (natToDec (n % base)))
  let fracStr := if t = [] then ['0'] else t
  natToDec (n / base) ++ (if fracStr = ['0'] then [] else '.' :: fracStr)

/-! ## Digit lemmas -/

theorem hexDigitVal?_digitChar : ∀ v < 16, hexDigitVal? (Nat.digitChar v) = some v := by
  decide

theorem digitVal_digitChar (v : ℕ) (h : v < 16) : digitVal (Nat.digitChar v) = v := by
  have := hexDigitVal?_digitChar v h
  simp [digitVal, this]

theorem digitChar_ne_dot : ∀ v < 16, Nat.digitChar v ≠ '.' := by decide

theorem digitChar_not_ws : ∀ v < 16, (Nat.digitChar v).isWhitespace = false := by decide

theorem digitVal_zero_char : digitVal '0' = 0 := by decide

theorem isRadixDigit_digitChar (b : ℕ) (hb : b ≤ 16) (v : ℕ) (hv : v < b) :
    isRadixDigit b (Nat.digitChar v) = true := by
  have h16 : v < 16 := lt_of_lt_of_le hv hb
  simp [isRadixDigit, hexDigitVal?_digitChar v h16, hv]

/-! ## Correctness of the base-`b` rendering -/

theorem foldl_natToBaseAux (b : ℕ) (hb : 2 ≤ b) (hb16 : b ≤ 16) :
    ∀ fuel n acc, n ≤ fuel →
      List.foldl (fun a c => b * a + digitVal c) acc (natToBaseAux b fuel n) =
        acc * b ^ (natToBaseAux b fuel n).length + n := by
  intro fuel
  induction fuel with
  | zero =>
    intro n acc hn
    interval_cases n
    simp [natToBaseAux]
  | succ fuel ih =>
    intro n acc hn
    match n with
    | 0 => simp [natToBaseAux]
    | m + 1 =>
      have hdiv : (m + 1) / b ≤ fuel := by
        have h1 : (m + 1) / b < m + 1 := Nat.div_lt_self (Nat.succ_pos m) (by omega)
        omega
      have hrec := ih ((m + 1) / b) acc hdiv
      have hmod : (m + 1) % b < 16 := lt_of_lt_of_le (Nat.mod_lt _ (by omega)) hb16
      simp only [natToBaseAux, List.foldl_append, List.foldl_cons, List.foldl_nil,
        List.length_append, List.length_cons, List.length_nil, hrec,
        digitVal_digitChar _ hmod]
      have hsplit : b * ((m + 1) / b) + (m + 1) % b = m + 1 := Nat.div_add_mod (m + 1) b
      generalize hq : (m + 1) / b = q at hrec hsplit ⊢
      generalize hr : (m + 1) % b = r at hsplit ⊢
      generalize hL : (natToBaseAux b fuel q).length = L at hrec ⊢
      rw [← hsplit]
      ring


theorem decToNat_natToBaseAux (b : ℕ) (hb : 2 ≤ b) (hb16 : b ≤ 16) (hb10 : b = 10)
    (n : ℕ) : decToNat (natToBaseAux b n n) = n := by
  subst hb10
  have := foldl_natToBaseAux 10 (by omega) (by omega) n n 0 le_rfl
  simpa [decToNat] using this

theorem decToNat_natToDec (n : ℕ) : decToNat (natToDec n) = n := by
  unfold natToDec
  by_cases h : n = 0
  · subst h; decide
  · rw [if_neg h]
    exact decToNat_natToBaseAux 10 (by omega) (by omega) rfl n

theorem mem_natToBaseAux (b : ℕ) (hb : 0 < b) :
    ∀ fuel n c, c ∈ natToBaseAux b fuel n → ∃ v, v < b ∧ c = Nat.digitChar v := by
  intro fuel
  induction fuel with
  | zero => intro n c hc; simp [natToBaseAux] at hc
  | succ fuel ih =>
    intro n c hc
    match n with
    | 0 => simp [natToBaseAux] at hc
    | m + 1 =>
      simp only [natToBaseAux, List.mem_append, List.mem_singleton] at hc
      rcases hc with hc | hc
      · exact ih _ c hc
      · exact ⟨(m + 1) % b, Nat.mod_lt _ hb, hc⟩

theorem length_natToBaseAux_le (b : ℕ) (hb : 2 ≤ b) :
    ∀ fuel n d, n ≤ fuel → n < b ^ d → (natToBaseAux b fuel n).length ≤ d := by
  intro fuel
  induction fuel with
  | zero =>
    intro n d hn _
    interval_cases n
    simp [natToBaseAux]
  | succ fuel ih =>
    intro n d hn hnd
    match n with
    | 0 => simp [natToBaseAux]
    | m + 1 =>
      match d with
      | 0 => simp at hnd
      | d + 1 =>
        have hdiv : (m + 1) / b ≤ fuel := by
          have h1 : (m + 1) / b < m + 1 := Nat.div_lt_self (Nat.succ_pos m) (by omega)
          omega
        have hlt : (m + 1) / b < b ^ d := by
          rw [Nat.div_lt_iff_lt_mul (by omega : 0 < b)]
          calc m + 1 < b ^ (d + 1) := hnd
            _ = b ^ d * b := by rw [pow_succ]
        have := ih ((m + 1) / b) d hdiv hlt
        simp only [natToBaseAux, List.length_append, List.length_cons, List.length_nil]
        omega

theorem natToBaseAux_ne_nil (b fuel n : ℕ) (hn : n ≠ 0) (hf : n ≤ fuel) :
    natToBaseAux b fuel n ≠ [] := by
  match fuel, n with
  | 0, n => omega
  | fuel + 1, 0 => omega
  | fuel + 1, m + 1 => simp [natToBaseAux]

/-! ## Folding over runs of zero characters -/

theorem foldl_replicate_zero (k a : ℕ) :
    List.foldl (fun x c => 10 * x + digitVal c) a (List.replicate k '0') = a * 10 ^ k := by
  induction k generalizing a with
  | zero => simp
  | succ k ih =>
    simp only [List.replicate_succ, List.foldl_cons, digitVal_zero_char]
    rw [ih]
    ring

theorem decToNat_replicate_append (k : ℕ) (l : List Char) :
    decToNat (List.replicate k '0' ++ l) = decToNat l := by
  unfold decToNat
  rw [List.foldl_append, foldl_replicate_zero]
  simp

theorem decToNat_append_replicate (l : List Char) (k : ℕ) :
    decToNat (l ++ List.replicate k '0') = decToNat l * 10 ^ k := by
  unfold decToNat
  rw [List.foldl_append, foldl_replicate_zero]

/-! ## Properties of the trailing-zero trim -/

theorem trimTrailZeros_decompose (l : List Char) :
    l = trimTrailZeros l ++
      List.replicate (l.length - (trimTrailZeros l).length) '0' ∧
    (trimTrailZeros l).length ≤ l.length := by
  have hsplit := List.takeWhile_append_dropWhile (fun c => decide (c = '0')) l.reverse
  have htake : List.takeWhile (fun c => decide (c = '0')) l.reverse =
      List.replicate (List.takeWhile (fun c => decide (c = '0')) l.reverse).length '0' := by
    apply List.eq_replicate_of_mem
    intro b hb
    have := List.mem_takeWhile_imp hb
    simpa using this
  have hdlen : (trimTrailZeros l).length =
      (List.dropWhile (fun c => decide (c = '0')) l.reverse).length := by
    unfold trimTrailZeros
    exact List.length_reverse _
  have hsum : (List.takeWhile (fun c => decide (c = '0')) l.reverse).length +
      (List.dropWhile (fun c => decide (c = '0')) l.reverse).length = l.length := by
    have h2 := congrArg List.length hsplit
    rw [List.length_append, List.length_reverse] at h2
    exact h2
  constructor
  · have hk : (List.takeWhile (fun c => decide (c = '0')) l.reverse).length =
        l.length - (trimTrailZeros l).length := by omega
    conv_lhs => rw [← List.reverse_reverse l, ← hsplit]
    rw [List.reverse_append, htake, hk, List.reverse_replicate]
    rfl
  · omega

theorem head?_dropWhile_not {α : Type} (p : α → Bool) :
    ∀ (l : List α) (a : α), (l.dropWhile p).head? = some a → p a = false := by
  intro l
  induction l with
  | nil => intro a h; simp at h
  | cons c r ih =>
    intro a h
    by_cases hc : p c
    · rw [List.dropWhile_cons_of_pos hc] at h
      exact ih a h
    · rw [List.dropWhile_cons_of_neg hc] at h
      simp only [List.head?_cons, Option.some.injEq] at h
      subst h
      simpa using hc

theorem trimTrailZeros_getLast?_ne_zero (l : List Char) (c : Char)
    (h : (trimTrailZeros l).getLast? = some c) : c ≠ '0' := by
  unfold trimTrailZeros at h
  rw [List.getLast?_reverse] at h
  have := head?_dropWhile_not (fun c => decide (c = '0')) l.reverse c h
  simpa using this

theorem mem_trimTrailZeros (l : List Char) (c : Char) (h : c ∈ trimTrailZeros l) :
    c ∈ l := by
  unfold trimTrailZeros at h
  rw [List.mem_reverse] at h
  have := (List.dropWhile_sublist (l := l.reverse) (fun c => decide (c = '0'))).mem h
  rwa [List.mem_reverse] at this

theorem trimTrailZeros_eq_nil_iff (l : List Char) :
    trimTrailZeros l = [] ↔ ∀ c ∈ l, c = '0' := by
  unfold trimTrailZeros
  rw [List.reverse_eq_nil_iff, List.dropWhile_eq_nil_iff]
  constructor
  · intro h c hc
    have := h c (by rwa [List.mem_reverse])
    simpa using this
  · intro h c hc
    simp [h c (by rwa [List.mem_reverse] at hc)]

/-! ## Reduction of the formatters to natural-number arithmetic -/

theorem intToDec_natCast (n : ℕ) : intToDec (n : ℤ) = natToDec n := by
  unfold intToDec
  rw [if_neg (by exact not_lt.mpr (Int.natCast_nonneg n))]
  simp

theorem tdiv_natCast (a b : ℕ) : Int.tdiv (a : ℤ) (b : ℤ) = ((a / b : ℕ) : ℤ) := rfl

theorem tmod_natCast (a b : ℕ) : Int.tmod (a : ℤ) (b : ℤ) = ((a % b : ℕ) : ℤ) := rfl

theorem tokenFormatChars_natCast (d n : ℕ) : tokenFormatChars d (n : ℤ) = fmtN d n := by
  have hbase : (10 : ℤ) ^ d = ((10 ^ d : ℕ) : ℤ) := by push_cast; ring
  simp only [tokenFormatChars, fmtN, hbase, tdiv_natCast, tmod_natCast, intToDec_natCast]

theorem weiToEtherChars_eq_token (wei : ℤ) : weiToEtherChars wei = tokenFormatChars 18 wei :=
  rfl

/-! ## Reading a formatted string back (the round-trip interpretation) -/

/-- Interpretation of a formatted decimal string, as the round-trip property
reads it: the digits before the first `'.'` are the whole part, the digits
after it the fractional part, and the value is
whole × 10^d + fraction × 10^(d − length of fraction). -/
def parseFixedAux (d : ℕ) : List Char → ℕ → ℕ
  | [], acc => acc * 10 ^ d
  | c :: rest, acc =>
    if c = '.' then acc * 10 ^ d + decToNat rest * 10 ^ (d - rest.length)
    else parseFixedAux d rest (10 * acc + digitVal c)

/-- Value of a formatted fixed-point string scaled back to an integer
magnitude at `d` fractional digits. -/
def parseFixed (d : ℕ) (l : List Char) : ℕ := parseFixedAux d l 0

theorem parseFixedAux_no_dot (d : ℕ) :
    ∀ l acc, '.' ∉ l →
      parseFixedAux d l acc = (List.foldl (fun a c => 10 * a + digitVal c) acc l) * 10 ^ d := by
  intro l
  induction l with
  | nil => intro acc _; rfl
  | cons c rest ih =>
    intro acc hdot
    have hc : c ≠ '.' := by
      intro h; exact hdot (by simp [h])
    have hrest : '.' ∉ rest := fun h => hdot (List.mem_cons_of_mem _ h)
    simp only [parseFixedAux, if_neg hc, List.foldl_cons]
    exact ih _ hrest

theorem parseFixedAux_dot (d : ℕ) (f : List Char) :
    ∀ l acc, '.' ∉ l →
      parseFixedAux d (l ++ '.' :: f) acc =
        (List.foldl (fun a c => 10 * a + digitVal c) acc l) * 10 ^ d +
          decToNat f * 10 ^ (d - f.length) := by
  intro l
  induction l with
  | nil =>
    intro acc _
    simp [parseFixedAux]
  | cons c rest ih =>
    intro acc hdot
    have hc : c ≠ '.' := by
      intro h; exact hdot (by simp [h])
    have hrest : '.' ∉ rest := fun h => hdot (List.mem_cons_of_mem _ h)
    simp only [List.cons_append, parseFixedAux, if_neg hc, List.foldl_cons]
    exact ih _ hrest

theorem dot_not_mem_natToDec (m : ℕ) : '.' ∉ natToDec m := by
  unfold natToDec
  by_cases h : m = 0
  · subst h; decide
  · rw [if_neg h]
    intro hmem
    obtain ⟨v, hv, hc⟩ := mem_natToBaseAux 10 (by omega) m m '.' hmem
    exact digitChar_ne_dot v (by omega) hc.symm

/-! ## Arithmetic facts about the formatted fraction -/

theorem decToNat_padded (d fr : ℕ) :
    decToNat (padStartZeros d (natToDec fr)) = fr := by
  unfold padStartZeros
  rw [decToNat_replicate_append, decToNat_natToDec]

theorem trim_padded_nil_iff (d fr : ℕ) :
    trimTrailZeros (padStartZeros d (natToDec fr)) = [] ↔ fr = 0 := by
  constructor
  · intro h
    obtain ⟨hdec, _⟩ := trimTrailZeros_decompose (padStartZeros d (natToDec fr))
    rw [h, List.nil_append] at hdec
    have hval := decToNat_padded d fr
    rw [hdec] at hval
    have hz : ∀ k, decToNat (List.replicate k '0') = 0 := by
      intro k
      have := decToNat_append_replicate [] k
      simpa [decToNat] using this
    rw [hz] at hval
    exact hval.symm
  · intro h
    subst h
    rw [trimTrailZeros_eq_nil_iff]
    intro c hc
    have h0 : natToDec 0 = ['0'] := rfl
    rw [h0] at hc
    unfold padStartZeros at hc
    rcases List.mem_append.mp hc with hc | hc
    · exact List.eq_of_mem_replicate hc
    · simpa using hc

theorem padded_length (d fr : ℕ) (hfr : fr < 10 ^ d) (hne : fr ≠ 0) :
    (padStartZeros d (natToDec fr)).length = d := by
  have hlen : (natToDec fr).length ≤ d := by
    unfold natToDec
    rw [if_neg hne]
    exact length_natToBaseAux_le 10 (by omega) fr fr d le_rfl hfr
  unfold padStartZeros
  rw [List.length_append, List.length_replicate]
  omega

theorem frac_from_trim (d fr : ℕ) (hfr : fr < 10 ^ d) (hne : fr ≠ 0) :
    decToNat (trimTrailZeros (padStartZeros d (natToDec fr))) *
      10 ^ (d - (trimTrailZeros (padStartZeros d (natToDec fr))).length) = fr := by
  obtain ⟨hdec, hle⟩ := trimTrailZeros_decompose (padStartZeros d (natToDec fr))
  have hval := decToNat_padded d fr
  rw [hdec] at hval
  rw [decToNat_append_replicate] at hval
  rw [padded_length d fr hfr hne] at hval hle
  exact hval

/-! ## Shape of the formatted output -/

theorem fmtN_eq_whole (d n : ℕ) (hfr0 : n % 10 ^ d = 0) :
    fmtN d n = natToDec (n / 10 ^ d) := by
  have ht := (trim_padded_nil_iff d (n % 10 ^ d)).mpr hfr0
  simp only [fmtN, ht]
  simp

theorem fmtN_eq_dot (d n : ℕ) (hfr0 : n % 10 ^ d ≠ 0) :
    fmtN d n = natToDec (n / 10 ^ d) ++
      '.' :: trimTrailZeros (padStartZeros d (natToDec (n % 10 ^ d))) := by
  have ht_ne : trimTrailZeros (padStartZeros d (natToDec (n % 10 ^ d))) ≠ [] := fun h =>
    hfr0 ((trim_padded_nil_iff d _).mp h)
  have ht_ne0 : trimTrailZeros (padStartZeros d (natToDec (n % 10 ^ d))) ≠ ['0'] := by
    intro h
    exact trimTrailZeros_getLast?_ne_zero _ '0' (by rw [h]; rfl) rfl
  simp only [fmtN, if_neg ht_ne, if_neg ht_ne0]

theorem parseFixed_fmtN (d n : ℕ) : parseFixed d (fmtN d n) = n := by
  have hbasepos : 0 < 10 ^ d := pow_pos (by omega) d
  have hfr_lt : n % 10 ^ d < 10 ^ d := Nat.mod_lt _ hbasepos
  have hsplitn : 10 ^ d * (n / 10 ^ d) + n % 10 ^ d = n := Nat.div_add_mod n (10 ^ d)
  by_cases hfr0 : n % 10 ^ d = 0
  · show parseFixedAux d (fmtN d n) 0 = n
    rw [fmtN_eq_whole d n hfr0,
      parseFixedAux_no_dot d _ 0 (dot_not_mem_natToDec _)]
    have : List.foldl (fun a c => 10 * a + digitVal c) 0 (natToDec (n / 10 ^ d)) =
        decToNat (natToDec (n / 10 ^ d)) := rfl
    rw [this, decToNat_natToDec, mul_comm]
    omega
  · show parseFixedAux d (fmtN d n) 0 = n
    rw [fmtN_eq_dot d n hfr0,
      parseFixedAux_dot d _ _ 0 (dot_not_mem_natToDec _)]
    have : List.foldl (fun a c => 10 * a + digitVal c) 0 (natToDec (n / 10 ^ d)) =
        decToNat (natToDec (n / 10 ^ d)) := rfl
    rw [this, decToNat_natToDec, frac_from_trim d (n % 10 ^ d) hfr_lt hfr0, mul_comm]
    omega

/-! ## Claim C1: the wei→ether formatter round-trips -/

/-- C1: for every valid hexadecimal string denoting a non-negative magnitude
`n`, `weiToEtherString` produces a string whose whole part times `10^18` plus
its fractional part read as an integer scaled to 18 digits equals `n`. -/
theorem c1_weiToEther_roundtrip (s : String) (n : ℕ)
    (h : hexToBigInt s = some (n : ℤ)) :
    ∃ out, weiToEtherString s = some out ∧ parseFixed 18 out.data = n := by
  refine ⟨String.mk (weiToEtherChars (n : ℤ)), ?_, ?_⟩
  · unfold weiToEtherString
    rw [h]
    rfl
  · show parseFixed 18 (weiToEtherChars (n : ℤ)) = n
    rw [weiToEtherChars_eq_token, tokenFormatChars_natCast, parseFixed_fmtN]

/-- Witness for C1 at the concrete input `"0x1a"` (magnitude 26). -/
theorem c1_weiToEther_roundtrip_witness :
    ∃ out, weiToEtherString "0x1a" = some out ∧ parseFixed 18 out.data = 26 :=
  c1_weiToEther_roundtrip "0x1a" 26 (by decide)

/-! ## Claim C6: trailing zeros are trimmed, all-zero fractions are omitted -/

/-- C6: for every valid hexadecimal input of magnitude `n` and every decimals
value `d`, the formatted output either has no fractional part (exactly when
the fraction is all zeros, in which case only the whole part is returned), or
its fractional part is non-empty and does not end in the digit `'0'`. -/
theorem c6_trailing_zero_trim (d : ℕ) (s : String) (n : ℕ)
    (_h : hexToBigInt s = some (n : ℤ)) :
    (n % 10 ^ d = 0 →
      tokenFormatChars d (n : ℤ) = natToDec (n / 10 ^ d) ∧
        '.' ∉ tokenFormatChars d (n : ℤ)) ∧
    (n % 10 ^ d ≠ 0 →
      ∃ f, tokenFormatChars d (n : ℤ) = natToDec (n / 10 ^ d) ++ '.' :: f ∧
        f ≠ [] ∧ f.getLast? ≠ some '0') := by
  rw [tokenFormatChars_natCast]
  constructor
  · intro hfr0
    rw [fmtN_eq_whole d n hfr0]
    exact ⟨rfl, dot_not_mem_natToDec _⟩
  · intro hfr0
    refine ⟨trimTrailZeros (padStartZeros d (natToDec (n % 10 ^ d))),
      fmtN_eq_dot d n hfr0, ?_, ?_⟩
    · intro hnil
      exact hfr0 ((trim_padded_nil_iff d _).mp hnil)
    · intro hlast
      exact trimTrailZeros_getLast?_ne_zero _ '0' hlast rfl

/-- Witness for C6 at `d = 2`, input `"0x5"` (magnitude 5, fraction `05`,
trimmed to `"0.05"`; and the whole-part branch vacuous). -/
theorem c6_trailing_zero_trim_witness :
    (5 % 10 ^ 2 = 0 →
      tokenFormatChars 2 ((5 : ℕ) : ℤ) = natToDec (5 / 10 ^ 2) ∧
        '.' ∉ tokenFormatChars 2 ((5 : ℕ) : ℤ)) ∧
    (5 % 10 ^ 2 ≠ 0 →
      ∃ f, tokenFormatChars 2 ((5 : ℕ) : ℤ) = natToDec (5 / 10 ^ 2) ++ '.' :: f ∧
        f ≠ [] ∧ f.getLast? ≠ some '0') :=
  c6_trailing_zero_trim 2 "0x5" 5 (by decide)

/-! ## Claim C7: concrete values -/

/-- C7: formatting `"0x0"` yields exactly `"0"` and formatting
`"0xde0b6b3a7640000"` (`10^18` wei) yields exactly `"1"`. -/
theorem c7_concrete_values :
    weiToEtherString "0x0" = some "0" ∧
      weiToEtherString "0xde0b6b3a7640000" = some "1" := by
  constructor
  · decide
  · decide

/-! ## Claim C10: the inline token formatter at 18 decimals is the wei→ether
formatter -/

/-- C10: for every hexadecimal balance input, the inline fixed-point logic of
the `get_token_balance` handler at `decimals = 18` produces exactly the string
`weiToEtherString` produces. -/
theorem c10_formatters_agree (s : String) :
    (hexToBigInt s).map (fun raw => String.mk (tokenFormatChars 18 raw)) =
      weiToEtherString s := rfl

/-! ## Claim C8: what `hexToBigInt` actually accepts -/

/-- Predicate written from the original claim's words: a valid hexadecimal
string, either bare or `0x`-prefixed, with at least one hexadecimal digit. -/
def isHexadecimalString (s : String) : Bool :=
  match s.data with
  | '0' :: 'x' :: r => !r.isEmpty && r.all (isRadixDigit 16)
  | r => !r.isEmpty && r.all (isRadixDigit 16)

/-- Predicate written from the amended claim's words: `BigInt(string)` accepts
the input iff, after whitespace trimming, it is empty (value 0), or a
`0x`/`0X`, `0o`/`0O`, `0b`/`0B` prefixed literal with at least one digit of
that radix, or an optionally `+`/`-` signed non-empty decimal digit string. -/
def validJsBigIntList (l : List Char) : Bool :=
  if l.isEmpty then true
  else
    let c := classifyLiteral l
    !c.2.2.isEmpty && c.2.2.all (isRadixDigit c.1)

/-- String version of `validJsBigIntList`, trimming first as `BigInt` does. -/
def validJsBigIntString (s : String) : Bool := validJsBigIntList (jsTrim s.data)

theorem parseRadix_isSome (b : ℕ) (r : List Char) :
    (parseRadix b r).isSome = (!r.isEmpty && r.all (isRadixDigit b)) := by
  unfold parseRadix
  split <;> simp_all

theorem dropWhile_eq_self_of_all {α : Type} (p : α → Bool) (l : List α)
    (h : ∀ c ∈ l, p c = false) : l.dropWhile p = l := by
  cases l with
  | nil => rfl
  | cons c r => exact List.dropWhile_cons_of_neg (by simp [h c (List.mem_cons_self c r)])

theorem jsTrim_eq_self (l : List Char) (h : ∀ c ∈ l, c.isWhitespace = false) :
    jsTrim l = l := by
  unfold jsTrim
  rw [dropWhile_eq_self_of_all _ _ h,
    dropWhile_eq_self_of_all _ _ (fun c hc => h c (List.mem_reverse.mp hc)),
    List.reverse_reverse]

theorem natToHex_chars (n : ℕ) :
    ∀ c ∈ natToHex n, ∃ v, v < 16 ∧ c = Nat.digitChar v := by
  intro c hc
  unfold natToHex at hc
  by_cases h : n = 0
  · rw [if_pos h] at hc
    simp only [List.mem_singleton] at hc
    exact ⟨0, by omega, by rw [hc]; rfl⟩
  · rw [if_neg h] at hc
    exact mem_natToBaseAux 16 (by omega) n n c hc

theorem natToDec_chars (n : ℕ) :
    ∀ c ∈ natToDec n, ∃ v, v < 10 ∧ c = Nat.digitChar v := by
  intro c hc
  unfold natToDec at hc
  by_cases h : n = 0
  · rw [if_pos h] at hc
    simp only [List.mem_singleton] at hc
    exact ⟨0, by omega, by rw [hc]; rfl⟩
  · rw [if_neg h] at hc
    exact mem_natToBaseAux 10 (by omega) n n c hc

theorem natToHex_ne_nil (n : ℕ) : natToHex n ≠ [] := by
  unfold natToHex
  by_cases h : n = 0
  · rw [if_pos h]; simp
  · rw [if_neg h]; exact natToBaseAux_ne_nil 16 n n h le_rfl

theorem natToDec_ne_nil (n : ℕ) : natToDec n ≠ [] := by
  unfold natToDec
  by_cases h : n = 0
  · rw [if_pos h]; simp
  · rw [if_neg h]; exact natToBaseAux_ne_nil 10 n n h le_rfl

theorem parseRadix_natToHex (n : ℕ) : parseRadix 16 (natToHex n) = some n := by
  unfold parseRadix
  rw [if_pos]
  · congr 1
    unfold natToHex
    by_cases h : n = 0
    · rw [if_pos h, h]; decide
    · rw [if_neg h]
      have := foldl_natToBaseAux 16 (by omega) (by omega) n n 0 le_rfl
      simpa using this
  · rw [Bool.and_eq_true]
    refine ⟨by simp [natToHex_ne_nil n], ?_⟩
    rw [List.all_eq_true]
    intro c hc
    obtain ⟨v, hv, hcv⟩ := natToHex_chars n c hc
    rw [hcv]
    exact isRadixDigit_digitChar 16 le_rfl v hv

theorem parseRadix_natToDec (n : ℕ) : parseRadix 10 (natToDec n) = some n := by
  unfold parseRadix
  rw [if_pos]
  · congr 1
    exact decToNat_natToDec n
  · rw [Bool.and_eq_true]
    refine ⟨by simp [natToDec_ne_nil n], ?_⟩
    rw [List.all_eq_true]
    intro c hc
    obtain ⟨v, hv, hcv⟩ := natToDec_chars n c hc
    rw [hcv]
    exact isRadixDigit_digitChar 10 (by omega) v (by omega)

theorem classifyLiteral_decimal (l : List Char)
    (h : ∀ c ∈ l, ∃ v, v < 10 ∧ c = Nat.digitChar v) :
    classifyLiteral l = (10, false, l) := by
  match l with
  | [] => rfl
  | [c] =>
    obtain ⟨v, hv, hc⟩ := h c (by simp)
    subst hc
    interval_cases v <;> rfl
  | c1 :: c2 :: r =>
    obtain ⟨v1, hv1, hc1⟩ := h c1 (by simp)
    obtain ⟨v2, hv2, hc2⟩ := h c2 (by simp)
    subst hc1
    subst hc2
    interval_cases v1 <;> interval_cases v2 <;> rfl

theorem strToBigInt_hexLiteral (n : ℕ) :
    strToBigInt (String.mk ('0' :: 'x' :: natToHex n)) = some (n : ℤ) := by
  unfold strToBigInt
  have hws : ∀ c ∈ ('0' :: 'x' :: natToHex n), c.isWhitespace = false := by
    intro c hc
    rcases List.mem_cons.mp hc with hc | hc
    · subst hc; decide
    rcases List.mem_cons.mp hc with hc | hc
    · subst hc; decide
    · obtain ⟨v, hv, hcv⟩ := natToHex_chars n c hc
      rw [hcv]
      exact digitChar_not_ws v hv
  rw [show (String.mk ('0' :: 'x' :: natToHex n)).data = '0' :: 'x' :: natToHex n from rfl,
    jsTrim_eq_self _ hws]
  unfold strToBigIntList
  rw [if_neg (by simp)]
  have hclass : classifyLiteral ('0' :: 'x' :: natToHex n) = (16, false, natToHex n) := rfl
  simp only [hclass, parseRadix_natToHex, Option.map_some']
  rfl

theorem strToBigInt_decLiteral (n : ℕ) :
    strToBigInt (String.mk (natToDec n)) = some (n : ℤ) := by
  unfold strToBigInt
  have hws : ∀ c ∈ natToDec n, c.isWhitespace = false := by
    intro c hc
    obtain ⟨v, hv, hcv⟩ := natToDec_chars n c hc
    rw [hcv]
    exact digitChar_not_ws v (by omega)
  rw [show (String.mk (natToDec n)).data = natToDec n from rfl, jsTrim_eq_self _ hws]
  unfold strToBigIntList
  rw [if_neg (by simp [natToDec_ne_nil n])]
  have hclass := classifyLiteral_decimal (natToDec n) (natToDec_chars n)
  simp only [hclass, parseRadix_natToDec, Option.map_some']
  rfl

theorem strToBigInt_isSome_iff (s : String) :
    (strToBigInt s).isSome = validJsBigIntString s := by
  unfold strToBigInt validJsBigIntString strToBigIntList validJsBigIntList
  by_cases h : (jsTrim s.data).isEmpty
  · simp [h]
  · simp only [h, Bool.false_eq_true, if_neg, ite_false]
    rw [← parseRadix_isSome]
    cases hp : parseRadix (classifyLiteral (jsTrim s.data)).1
        (classifyLiteral (jsTrim s.data)).2.2 <;> simp [hp]

/-- C8 counterexample: `"1a"` and `"12"` are valid bare hexadecimal strings,
yet `hexToBigInt` raises a parse error on `"1a"`, and reads `"12"` as the
decimal value 12 rather than the hexadecimal value 18 — so the claim that the
formatter accepts bare hexadecimal and errors exactly on non-hexadecimal
input is false. -/
theorem c8_counterexample :
    isHexadecimalString "1a" = true ∧ hexToBigInt "1a" = none ∧
      isHexadecimalString "12" = true ∧ hexToBigInt "12" = some 12 ∧
        (12 : ℤ) ≠ 18 := by
  refine ⟨by decide, by decide, by decide, by decide, by decide⟩

/-- C8 (amended): `hexToBigInt` parses `0x`-prefixed hexadecimal strings to
their (non-negative, arbitrary-precision) hexadecimal value, parses bare digit
strings as decimal, and raises a parse error exactly when the trimmed input is
neither empty, nor a prefixed radix literal with at least one digit, nor an
optionally signed non-empty decimal string. -/
theorem c8_parse_semantics :
    (∀ n : ℕ, hexToBigInt (String.mk ('0' :: 'x' :: natToHex n)) = some (n : ℤ)) ∧
      (∀ n : ℕ, hexToBigInt (String.mk (natToDec n)) = some (n : ℤ)) ∧
        ∀ s : String, (hexToBigInt s).isSome = validJsBigIntString s :=
  ⟨strToBigInt_hexLiteral, strToBigInt_decLiteral, strToBigInt_isSome_iff⟩

/-! ## The retrying JSON-RPC call -/

/-- Body of an HTTP response as the proxy observes it after `res.json()`:
either a successful JSON-RPC envelope carrying `result` (the `error` field
absent or falsy), or an envelope carrying an `error` object whose `message`
may be absent. -/
inductive RpcBody where
  | success (result : String)
  | failure (message : Option String)

/-- An HTTP response: status code and parsed body. -/
structure HttpResp where
  status : ℕ
  body : RpcBody

/-- Model of `data.error.message || 'RPC error'` (mcp.ts line 27): an absent
or empty (falsy) message falls back to the generic text. -/
def errMsg : Option String → String
  | some m => if m = "" then "RPC error" else m
  | none => "RPC error"

/-- Translation of the closure passed to `pRetry` (mcp.ts lines 13–29) for
one attempt, over an abstract HTTP response: statuses 429/403/503 throw the
rate/service error, any other non-2xx status throws the RPC-failed error with
the method name and status, a 2xx body with an `error` field throws its
message, otherwise the `result` is returned.  Thrown errors are modelled as
`Except.error` of the message. -/
def attemptOnce (method : String) (resp : HttpResp) : Except String String :=
  if resp.status = 429 ∨ resp.status = 403 ∨ resp.status = 503 then
    Except.error ("Rate/Service error " ++ Nat.repr resp.status)
  else if ¬ (200 ≤ resp.status ∧ resp.status ≤ 299) then
    Except.error ("RPC " ++ method ++ " failed " ++ Nat.repr resp.status)
  else
    match resp.body with
    | RpcBody.failure m => Except.error (errMsg m)
    | RpcBody.success r => Except.ok r

/-- Retry policy options, shaped after the RETRY constant (mcp.ts line 8). -/
structure RetryOptions where
  factor : ℚ
  minTimeout : ℚ
  maxTimeout : ℚ
  randomize : Bool

/-- Translation of `RETRY` (mcp.ts line 8). -/
def RETRY : RetryOptions :=
  { factor := 2, minTimeout := 500, maxTimeout := 8000, randomize := true }

/-- Modelled from the `retry` library (the dependency behind `p-retry`, not
part of this repository): the default `retries` count used when the options
object does not override it, which the spec notes the reference relies on
("the retry library's default attempt cap"). -/
def defaultRetries : ℕ := 10

/-- Modelled from the `retry` library's `createTimeout`:
`Math.min(Math.round(random * Math.max(minTimeout, 1) * factor ** attempt),
maxTimeout)`, where `random` is `Math.random() + 1` when `randomize` is set
and 1 otherwise; `rnd` supplies the random factor. -/
def createTimeout (opts : RetryOptions) (rnd : ℚ) (attempt : ℕ) : ℚ :=
  min ((round ((if opts.randomize then rnd else 1) * max opts.minTimeout 1 *
    opts.factor ^ attempt) : ℤ) : ℚ) opts.maxTimeout

/-- Modelled from the `retry` library's `timeouts`: one backoff delay per
allowed retry, sorted ascending (the library sorts the array it builds). -/
def retryTimeouts (opts : RetryOptions) (retries : ℕ) (rnd : ℕ → ℚ) : List ℚ :=
  List.insertionSort (fun a b => a ≤ b)
    ((List.range retries).map fun i => createTimeout opts (rnd i) i)

/-- Modelled from `p-retry` (third-party dependency): run the attempt
closure; every thrown `Error` is retried while backoff delays remain (as the
spec records, the wrapper retries any thrown error), and when the budget is
exhausted the last error is surfaced (for the homogeneous failures of the
claims this coincides with the library's `mainError`).  Returns the number of
attempts performed, the delays slept between attempts, and the outcome. -/
def pRetryRun (fn : ℕ → Except String String) :
    List ℚ → ℕ → ℕ × List ℚ × Except String String
  | timeouts, attempt =>
    match fn attempt with
    | Except.ok v => (attempt + 1, [], Except.ok v)
    | Except.error e =>
      match timeouts with
      | [] => (attempt + 1, [], Except.error e)
      | t :: rest =>
        ((pRetryRun fn rest (attempt + 1)).1,
          t :: (pRetryRun fn rest (attempt + 1)).2.1,
          (pRetryRun fn rest (attempt + 1)).2.2)

/-- Translation of `tatumRpc` (mcp.ts lines 10–30): the `fetch` of attempt
`i` is abstracted as `transport i`, the backoff randomness as `rnd`, and the
`pRetry(..., RETRY)` wrapper as `pRetryRun` over the default retry budget.
Returns (attempts performed, delays slept, outcome). -/
def tatumRpc (method : String) (transport : ℕ → HttpResp) (rnd : ℕ → ℚ) :
    ℕ × List ℚ × Except String String :=
  pRetryRun (fun i => attemptOnce method (transport i))
    (retryTimeouts RETRY defaultRetries rnd) 0

/-! ## Behaviour of the retry loop -/

theorem retryTimeouts_length (opts : RetryOptions) (retries : ℕ) (rnd : ℕ → ℚ) :
    (retryTimeouts opts retries rnd).length = retries := by
  unfold retryTimeouts
  rw [(List.perm_insertionSort _ _).length_eq]
  simp

theorem mem_retryTimeouts_le (opts : RetryOptions) (retries : ℕ) (rnd : ℕ → ℚ)
    (t : ℚ) (h : t ∈ retryTimeouts opts retries rnd) : t ≤ opts.maxTimeout := by
  unfold retryTimeouts at h
  rw [(List.perm_insertionSort _ _).mem_iff] at h
  obtain ⟨i, _, hi⟩ := List.mem_map.mp h
  rw [← hi]
  exact min_le_right _ _

theorem retryTimeouts_sorted (opts : RetryOptions) (retries : ℕ) (rnd : ℕ → ℚ) :
    List.Sorted (fun a b => a ≤ b) (retryTimeouts opts retries rnd) :=
  List.sorted_insertionSort _ _

theorem pRetryRun_all_error (fn : ℕ → Except String String) (e : String) :
    ∀ (ts : List ℚ) (a : ℕ), (∀ i, i ≤ a + ts.length → fn i = Except.error e) →
      pRetryRun fn ts a = (a + ts.length + 1, ts, Except.error e) := by
  intro ts
  induction ts with
  | nil =>
    intro a h
    have ha := h a (by simp)
    unfold pRetryRun
    rw [ha]
    rfl
  | cons t rest ih =>
    intro a h
    have ha := h a (by simp)
    have hrec := ih (a + 1) (fun i hi => h i (by simp only [List.length_cons]; omega))
    unfold pRetryRun
    rw [ha]
    simp only [hrec, List.length_cons, Prod.mk.injEq]
    exact ⟨by omega, trivial⟩

theorem pRetryRun_succeeds (fn : ℕ → Except String String) (v : String) :
    ∀ (k : ℕ) (ts : List ℚ) (a : ℕ), k ≤ ts.length →
      (∀ i, i < k → ∃ e, fn (a + i) = Except.error e) →
      fn (a + k) = Except.ok v →
      pRetryRun fn ts a = (a + k + 1, ts.take k, Except.ok v) := by
  intro k
  induction k with
  | zero =>
    intro ts a _ _ hok
    rw [Nat.add_zero] at hok
    unfold pRetryRun
    rw [hok]
    simp
  | succ k ih =>
    intro ts a hk hfail hok
    match ts with
    | [] => simp at hk
    | t :: rest =>
      obtain ⟨e, he⟩ := hfail 0 (by omega)
      rw [Nat.add_zero] at he
      have hrec := ih rest (a + 1) (by simp only [List.length_cons] at hk; omega)
        (fun i hi => by
          obtain ⟨e2, he2⟩ := hfail (i + 1) (by omega)
          exact ⟨e2, by rwa [show a + 1 + i = a + (i + 1) from by omega]⟩)
        (by rwa [show a + 1 + k = a + (k + 1) from by omega])
      unfold pRetryRun
      rw [he]
      simp only [hrec, List.take_succ_cons, Prod.mk.injEq]
      exact ⟨by omega, trivial⟩

/-! ## Claim C2 (application errors are in fact retried) -/

/-- C2 counterexample: with every attempt answering HTTP 200 and body
`{"error":{"message":"boom"}}`, the call does raise `"boom"`, but only after
11 attempts — not after exactly 1 attempt as claimed; `p-retry` retries every
thrown `Error`, including application errors. -/
theorem c2_counterexample :
    (tatumRpc "eth_call" (fun _ => ⟨200, RpcBody.failure (some "boom")⟩)
        (fun _ => 1)).2.2 = Except.error "boom" ∧
      (tatumRpc "eth_call" (fun _ => ⟨200, RpcBody.failure (some "boom")⟩)
        (fun _ => 1)).1 = 11 ∧
      (tatumRpc "eth_call" (fun _ => ⟨200, RpcBody.failure (some "boom")⟩)
        (fun _ => 1)).1 ≠ 1 := by
  have hrun := pRetryRun_all_error
    (fun i => attemptOnce "eth_call" ⟨200, RpcBody.failure (some "boom")⟩) "boom"
    (retryTimeouts RETRY defaultRetries (fun _ => 1)) 0 (fun i _ => rfl)
  unfold tatumRpc
  rw [hrun, retryTimeouts_length]
  exact ⟨rfl, rfl, by decide⟩

/-- C2 (amended): with every attempt answering HTTP 200 and a body whose
`error.message` is `"boom"`, `tatumRpc` raises the application error
`"boom"`, but only after exhausting the retry budget: 11 HTTP attempts
(1 + the default 10 retries), because `p-retry` retries every thrown error. -/
theorem c2_application_error_retried (method : String) (transport : ℕ → HttpResp)
    (rnd : ℕ → ℚ) (h : ∀ i, transport i = ⟨200, RpcBody.failure (some "boom")⟩) :
    (tatumRpc method transport rnd).2.2 = Except.error "boom" ∧
      (tatumRpc method transport rnd).1 = defaultRetries + 1 := by
  have hfn : ∀ i, attemptOnce method (transport i) = Except.error "boom" := by
    intro i
    rw [h i]
    rfl
  have hrun := pRetryRun_all_error (fun i => attemptOnce method (transport i)) "boom"
    (retryTimeouts RETRY defaultRetries rnd) 0 (fun i _ => hfn i)
  unfold tatumRpc
  rw [hrun, retryTimeouts_length]
  exact ⟨rfl, by omega⟩

/-- Witness for C2's amended statement at a concrete transport. -/
theorem c2_application_error_retried_witness :
    (tatumRpc "eth_blockNumber" (fun _ => ⟨200, RpcBody.failure (some "boom")⟩)
        (fun _ => 1)).2.2 = Except.error "boom" ∧
      (tatumRpc "eth_blockNumber" (fun _ => ⟨200, RpcBody.failure (some "boom")⟩)
        (fun _ => 1)).1 = defaultRetries + 1 :=
  c2_application_error_retried "eth_blockNumber" _ _ (fun _ => rfl)

/-! ## Claim C3 (non-retryable statuses are in fact retried) -/

/-- C3 counterexample: with every attempt answering HTTP 404, the call raises
the transport failure naming the method and the status, but after 11 attempts
— not after exactly 1 attempt as claimed; `p-retry` retries this thrown error
too. -/
theorem c3_counterexample :
    (tatumRpc "eth_call" (fun _ => ⟨404, RpcBody.success "x"⟩) (fun _ => 1)).2.2 =
        Except.error "RPC eth_call failed 404" ∧
      (tatumRpc "eth_call" (fun _ => ⟨404, RpcBody.success "x"⟩) (fun _ => 1)).1 = 11 ∧
      (tatumRpc "eth_call" (fun _ => ⟨404, RpcBody.success "x"⟩) (fun _ => 1)).1 ≠ 1 := by
  have hrun := pRetryRun_all_error
    (fun _ => attemptOnce "eth_call" ⟨404, RpcBody.success "x"⟩)
    "RPC eth_call failed 404"
    (retryTimeouts RETRY defaultRetries (fun _ => 1)) 0 (fun _ _ => rfl)
  unfold tatumRpc
  rw [hrun, retryTimeouts_length]
  exact ⟨rfl, rfl, by decide⟩

/-- C3 (amended): for every non-2xx status outside {429, 403, 503} returned
on every attempt, `tatumRpc` raises the transport failure whose message
carries the method name and the status code, after exhausting the retry
budget (11 attempts: 1 + the default 10 retries) rather than after exactly
one attempt. -/
theorem c3_transport_failure_retried (method : String) (s : ℕ)
    (transport : ℕ → HttpResp) (rnd : ℕ → ℚ)
    (hs1 : ¬ (s = 429 ∨ s = 403 ∨ s = 503)) (hs2 : ¬ (200 ≤ s ∧ s ≤ 299))
    (h : ∀ i, (transport i).status = s) :
    (tatumRpc method transport rnd).2.2 =
        Except.error ("RPC " ++ method ++ " failed " ++ Nat.repr s) ∧
      (tatumRpc method transport rnd).1 = defaultRetries + 1 := by
  have hfn : ∀ i, attemptOnce method (transport i) =
      Except.error ("RPC " ++ method ++ " failed " ++ Nat.repr s) := by
    intro i
    unfold attemptOnce
    rw [h i, if_neg hs1, if_pos hs2]
  have hrun := pRetryRun_all_error (fun i => attemptOnce method (transport i)) _
    (retryTimeouts RETRY defaultRetries rnd) 0 (fun i _ => hfn i)
  unfold tatumRpc
  rw [hrun, retryTimeouts_length]
  exact ⟨rfl, by omega⟩

/-- Witness for C3's amended statement at status 404. -/
theorem c3_transport_failure_retried_witness :
    (tatumRpc "eth_getCode" (fun _ => ⟨404, RpcBody.success ""⟩) (fun _ => 1)).2.2 =
        Except.error ("RPC " ++ "eth_getCode" ++ " failed " ++ Nat.repr 404) ∧
      (tatumRpc "eth_getCode" (fun _ => ⟨404, RpcBody.success ""⟩) (fun _ => 1)).1 =
        defaultRetries + 1 :=
  c3_transport_failure_retried "eth_getCode" 404 _ _ (by decide) (by decide) (fun _ => rfl)

/-! ## Claim C5 (a permanent 403 exhausts the bounded attempt budget) -/

/-- C5: when the transport returns HTTP 403 on every attempt, `tatumRpc`
terminates, raising the rate/service transport failure after exactly the
configured attempt budget of `defaultRetries + 1 = 11` attempts — it does not
retry forever. -/
theorem c5_always_403_bounded (method : String) (transport : ℕ → HttpResp)
    (rnd : ℕ → ℚ) (h : ∀ i, (transport i).status = 403) :
    (tatumRpc method transport rnd).1 = defaultRetries + 1 ∧
      (tatumRpc method transport rnd).2.2 =
        Except.error ("Rate/Service error " ++ Nat.repr 403) := by
  have hfn : ∀ i, attemptOnce method (transport i) =
      Except.error ("Rate/Service error " ++ Nat.repr 403) := by
    intro i
    unfold attemptOnce
    rw [h i, if_pos (by omega)]
  have hrun := pRetryRun_all_error (fun i => attemptOnce method (transport i)) _
    (retryTimeouts RETRY defaultRetries rnd) 0 (fun i _ => hfn i)
  unfold tatumRpc
  rw [hrun, retryTimeouts_length]
  exact ⟨by omega, rfl⟩

/-- Witness for C5 at a concrete always-403 transport. -/
theorem c5_always_403_bounded_witness :
    (tatumRpc "eth_chainId" (fun _ => ⟨403, RpcBody.success ""⟩) (fun _ => 1)).1 =
        defaultRetries + 1 ∧
      (tatumRpc "eth_chainId" (fun _ => ⟨403, RpcBody.success ""⟩) (fun _ => 1)).2.2 =
        Except.error ("Rate/Service error " ++ Nat.repr 403) :=
  c5_always_403_bounded "eth_chainId" _ _ (fun _ => rfl)

/-! ## Claim C4 (retry on 429 until success, within the budget) -/

/-- Transport that rate-limits the first `k` attempts and then succeeds with
result `v`; used to exercise the retry loop. -/
def demoTransport (k : ℕ) (v : String) : ℕ → HttpResp :=
  fun i => if i < k then ⟨429, RpcBody.success ""⟩ else ⟨200, RpcBody.success v⟩

/-- C4 counterexample: the claim quantifies over every `k ≥ 0`, but at
`k = 11` (429 on the first 11 attempts, success available afterwards) the
call does not succeed after 12 attempts: the budget of 10 retries is
exhausted and the rate/service failure is raised after 11 attempts. -/
theorem c4_counterexample :
    (tatumRpc "eth_blockNumber" (demoTransport 11 "0x10") (fun _ => 1)).2.2 =
        Except.error "Rate/Service error 429" ∧
      (tatumRpc "eth_blockNumber" (demoTransport 11 "0x10") (fun _ => 1)).1 = 11 := by
  have hfail : ∀ i, i ≤ 0 + (retryTimeouts RETRY defaultRetries (fun _ => 1)).length →
      attemptOnce "eth_blockNumber" (demoTransport 11 "0x10" i) =
        Except.error "Rate/Service error 429" := by
    intro i hi
    rw [retryTimeouts_length] at hi
    have hd : defaultRetries = 10 := rfl
    have hlt : i < 11 := by omega
    unfold demoTransport
    rw [if_pos hlt]
    rfl
  unfold tatumRpc
  rw [pRetryRun_all_error _ _ _ _ hfail, retryTimeouts_length]
  exact ⟨rfl, rfl⟩

/-- C4 (amended): for every `k ≤ 10` (the default retry budget), if the
transport returns HTTP 429 on the first `k` attempts and then a 2xx response
with result `v`, `tatumRpc` returns `v` after exactly `k + 1` attempts, and
the inter-attempt delays it slept are the first `k` of the sorted backoff
table: non-decreasing and each bounded by the configured maximum delay of
8000 ms. -/
theorem c4_retry_until_success (k : ℕ) (hk : k ≤ defaultRetries) (method : String)
    (transport : ℕ → HttpResp) (rnd : ℕ → ℚ) (v : String)
    (h429 : ∀ i, i < k → (transport i).status = 429)
    (hok : transport k = ⟨200, RpcBody.success v⟩) :
    (tatumRpc method transport rnd).1 = k + 1 ∧
      (tatumRpc method transport rnd).2.2 = Except.ok v ∧
      (tatumRpc method transport rnd).2.1 =
        (retryTimeouts RETRY defaultRetries rnd).take k ∧
      List.Sorted (fun a b => a ≤ b) (tatumRpc method transport rnd).2.1 ∧
      ∀ t ∈ (tatumRpc method transport rnd).2.1, t ≤ (8000 : ℚ) := by
  have hfail : ∀ i, i < k → ∃ e,
      attemptOnce method (transport (0 + i)) = Except.error e := by
    intro i hi
    refine ⟨"Rate/Service error " ++ Nat.repr 429, ?_⟩
    rw [Nat.zero_add]
    unfold attemptOnce
    rw [h429 i hi, if_pos (by omega)]
  have hok' : attemptOnce method (transport (0 + k)) = Except.ok v := by
    rw [Nat.zero_add, hok]
    rfl
  have hres : tatumRpc method transport rnd =
      (k + 1, (retryTimeouts RETRY defaultRetries rnd).take k, Except.ok v) := by
    unfold tatumRpc
    rw [pRetryRun_succeeds (fun i => attemptOnce method (transport i)) v k
      (retryTimeouts RETRY defaultRetries rnd) 0
      (by rw [retryTimeouts_length]; exact hk) hfail hok']
    simp
  rw [hres]
  refine ⟨rfl, rfl, rfl, ?_, ?_⟩
  · exact List.Pairwise.sublist (List.take_sublist _ _)
      (retryTimeouts_sorted RETRY defaultRetries rnd)
  · intro t ht
    have hmem : t ∈ retryTimeouts RETRY defaultRetries rnd :=
      List.take_subset _ _ ht
    exact mem_retryTimeouts_le RETRY defaultRetries rnd t hmem

/-- Witness for C4's amended statement at `k = 2`. -/
theorem c4_retry_until_success_witness :
    (tatumRpc "eth_gasPrice" (demoTransport 2 "0xa") (fun _ => 1)).1 = 2 + 1 ∧
      (tatumRpc "eth_gasPrice" (demoTransport 2 "0xa") (fun _ => 1)).2.2 =
        Except.ok "0xa" ∧
      (tatumRpc "eth_gasPrice" (demoTransport 2 "0xa") (fun _ => 1)).2.1 =
        (retryTimeouts RETRY defaultRetries (fun _ => 1)).take 2 ∧
      List.Sorted (fun a b => a ≤ b)
        (tatumRpc "eth_gasPrice" (demoTransport 2 "0xa") (fun _ => 1)).2.1 ∧
      ∀ t ∈ (tatumRpc "eth_gasPrice" (demoTransport 2 "0xa") (fun _ => 1)).2.1,
        t ≤ (8000 : ℚ) :=
  c4_retry_until_success 2 (by decide) "eth_gasPrice" (demoTransport 2 "0xa")
    (fun _ => 1) "0xa"
    (fun i hi => by unfold demoTransport; rw [if_pos hi])
    (by unfold demoTransport; rw [if_neg (by omega)])

/-! ## Claim C9: the rpc_call allow-list -/

/-- Translation of `ALLOW_METHODS` (mcp.ts lines 57–69). -/
def ALLOW_METHODS : List String :=
  ["eth_blockNumber", "eth_getBalance", "eth_getBlockByNumber",
   "eth_getTransactionByHash", "eth_getLogs", "eth_call", "eth_chainId",
   "eth_gasPrice", "eth_estimateGas", "eth_getCode", "eth_getTransactionReceipt"]

/-- Translation of the `rpc_call` tool handler (mcp.ts lines 157–161), with
the network call `tatumRpc(cfg, method, params)` abstracted as the parameter
`rpc` and the thrown error modelled as `Except.error`: a method outside the
allow-list throws before the RPC call is reached, otherwise the input is
forwarded unchanged. -/
def rpcCallTool {α β : Type} (rpc : String → List α → β) (method : String)
    (params : List α) : Except String β :=
  if !ALLOW_METHODS.contains method then Except.error "Method not allowed"
  else Except.ok (rpc method params)

/-- C9: the allow-list has eleven entries; for every method outside it the
`rpc_call` handler raises "Method not allowed" whatever the RPC function is
(so `tatumRpc` is never invoked and no network request is made), and for
every method in it the handler forwards method and params unchanged to the
RPC function. -/
theorem c9_allow_list (method : String) :
    ALLOW_METHODS.length = 11 ∧
      (∀ {α β : Type} (params : List α), ALLOW_METHODS.contains method = false →
        ∀ rpc : String → List α → β,
          rpcCallTool rpc method params = Except.error "Method not allowed") ∧
      (∀ {α β : Type} (params : List α), ALLOW_METHODS.contains method = true →
        ∀ rpc : String → List α → β,
          rpcCallTool rpc method params = Except.ok (rpc method params)) := by
  refine ⟨rfl, ?_, ?_⟩
  · intro α β params h rpc
    unfold rpcCallTool
    rw [h]
    rfl
  · intro α β params h rpc
    unfold rpcCallTool
    rw [h]
    rfl

/-- Witness for C9: a method outside the list is rejected independently of
the RPC function, and an allow-listed method is forwarded unchanged. -/
theorem c9_allow_list_witness :
    rpcCallTool (fun _ _ => (0 : ℕ)) "eth_sendRawTransaction" ([] : List ℕ) =
        Except.error "Method not allowed" ∧
      rpcCallTool (fun m p => (m, p)) "eth_call" ["0xabc"] =
        Except.ok ("eth_call", ["0xabc"]) :=
  ⟨(c9_allow_list "eth_sendRawTransaction").2.1 [] (by decide) _,
    (c9_allow_list "eth_call").2.2 ["0xabc"] (by decide) _⟩

end TatumMcp
